import Mathlib

/-!
Shallow embedding of the pet-adoption backend's adoption-workflow routes
(`src/routes/applicationRoutes.js`) together with the Mongoose data model
(`src/models/Application.js`, the pet schema with `adoptedBy`/`adoptionDate`).

The database is a pair of in-memory collections; each Express handler becomes
a pure function from the database (plus the request data and the current
time, modelled as a natural number) to a response together with the new
database.  Mongoose operations are modelled as follows:

* `Model.findById(id)`            → `List.find?` on the collection;
* `Model.findOne(query)`          → `List.find?` with the query predicate;
* `Model.create(doc)`             → append, guarded by the compound unique
                                    index `(userId, petId)` declared in
                                    `Application.js` (a duplicate insert is
                                    rejected by the index and surfaces as a
                                    thrown error);
* `doc.save()` / `findByIdAndUpdate` → `List.map` replacing the matching
                                    record (a no-op when the id is absent,
                                    exactly as `findByIdAndUpdate` on a
                                    missing id);
* `findByIdAndDelete(id)`         → `List.filter` dropping the record.

JavaScript's `null` dereference in the handlers (`application.status = ...`
when `findById` returned `null`) throws, lands in the `catch`, and produces a
500 response with the database untouched; the embedding returns
`Resp.serverError` on that path.
-/

namespace PetAdoption

/-- A pet record: `status` ranges over the schema's string enum; `adoptedBy`
and `adoptionDate` both default to `null` in the schema. -/
structure Pet where
  id : Nat
  status : String
  adoptedBy : Option Nat
  adoptionDate : Option Nat
  deriving DecidableEq

/-- An application record, after `applicationSchema`: `status` defaults to
`"Pending"`, `appliedDate` defaults to the creation time, `decidedDate` is
optional. -/
structure Application where
  id : Nat
  userId : Nat
  petId : Nat
  status : String
  userMessage : Option String
  adminNotes : Option String
  appliedDate : Nat
  decidedDate : Option Nat
  deriving DecidableEq

/-- The persistent store: the two collections, plus a counter supplying
fresh `_id`s for inserted applications. -/
structure DB where
  pets : List Pet
  apps : List Application
  nextId : Nat
  deriving DecidableEq

/-- An empty application ledger over an initial pet registry. -/
def DB.init (pets0 : List Pet) : DB :=
  { pets := pets0, apps := [], nextId := 0 }

/-- HTTP outcomes the handlers actually produce. -/
inductive Resp where
  | created      -- 201
  | ok           -- 200
  | badRequest   -- 400 "Already applied for this pet"
  | forbidden    -- 403 "Unauthorized"
  | notFound     -- 404 "Pet not found"
  | serverError  -- 500 (thrown error caught by the handler)
  deriving DecidableEq

/-- `Pet.findById(petId)` produced a document (truthiness of the lookup). -/
def petExists (db : DB) (petId : Nat) : Bool :=
  db.pets.any (fun p => p.id == petId)

/-- `Application.findOne({ userId, petId })` produced a document. -/
def dupExists (db : DB) (userId petId : Nat) : Bool :=
  db.apps.any (fun a => a.userId == userId && a.petId == petId)

/-- `Pet.findByIdAndUpdate(petId, { status })`: set only the `status` field
of the matching pet; no-op when the pet is missing. -/
def setPetStatus (db : DB) (petId : Nat) (s : String) : DB :=
  { db with pets := db.pets.map (fun p => if p.id == petId then { p with status := s } else p) }

/-- `application.save()` after mutating fields: replace the record with the
matching `_id`. -/
def updateApp (db : DB) (appId : Nat) (f : Application → Application) : DB :=
  { db with apps := db.apps.map (fun a => if a.id == appId then f a else a) }

/-- `Application.findById(appId)`. -/
def findApp (db : DB) (appId : Nat) : Option Application :=
  db.apps.find? (fun a => a.id == appId)

/-- The document `Application.create` builds: schema defaults give
`status = "Pending"`, `appliedDate = now`, no `decidedDate`. -/
def newApp (db : DB) (userId petId : Nat) (msg : Option String) (now : Nat) : Application :=
  { id := db.nextId, userId := userId, petId := petId, status := "Pending",
    userMessage := msg, adminNotes := none, appliedDate := now, decidedDate := none }

/-- `Application.create({...})` under the compound unique index
`{ userId: 1, petId: 1 } (unique)`: the insert commits only if no record
with the same `(userId, petId)` already exists, else the index rejects it. -/
def createUnique (db : DB) (userId petId : Nat) (msg : Option String) (now : Nat) :
    Option DB :=
  if dupExists db userId petId then none
  else some { db with
    apps := db.apps ++ [newApp db userId petId msg now],
    nextId := db.nextId + 1 }

/-- `POST /api/applications` (submit): 404 when the pet is missing, 400 when
`findOne` sees an existing `(userId, petId)` application, otherwise create
the application (the unique index throwing surfaces as 500) and then set the
pet's status to `"Under Review"` unconditionally. -/
def submitApplication (db : DB) (now userId petId : Nat) (msg : Option String) :
    Resp × DB :=
  if !petExists db petId then (.notFound, db)
  else if dupExists db userId petId then (.badRequest, db)
  else
    match createUnique db userId petId msg now with
    | none => (.serverError, db)
    | some db1 => (.created, setPetStatus db1 petId "Under Review")

/-- `PUT /api/applications/:id/approve`: no null check, so a missing id
throws and yields 500; otherwise set the application to `"Approved"` with
`decidedDate = now` and `adminNotes`, save, then unconditionally set the pet
to `"Adopted"`. -/
def approveApplication (db : DB) (now appId : Nat) (notes : Option String) :
    Resp × DB :=
  match findApp db appId with
  | none => (.serverError, db)
  | some app =>
    let db1 := updateApp db appId
      (fun a => { a with status := "Approved", adminNotes := notes, decidedDate := some now })
    (.ok, setPetStatus db1 app.petId "Adopted")

/-- `PUT /api/applications/:id/reject`: no null check (missing id → 500);
otherwise set the application to `"Rejected"` with `decidedDate = now` and
`adminNotes`, save, then unconditionally set the pet to `"Available"`. -/
def rejectApplication (db : DB) (now appId : Nat) (notes : Option String) :
    Resp × DB :=
  match findApp db appId with
  | none => (.serverError, db)
  | some app =>
    let db1 := updateApp db appId
      (fun a => { a with status := "Rejected", adminNotes := notes, decidedDate := some now })
    (.ok, setPetStatus db1 app.petId "Available")

/-- `DELETE /api/applications/:id` (withdraw): no null check (missing id →
500); 403 unless the caller owns the application; otherwise delete it, then
revert the pet to `"Available"` only if no remaining application for the
same pet has status `"Pending"`. -/
def withdrawApplication (db : DB) (userId appId : Nat) : Resp × DB :=
  match findApp db appId with
  | none => (.serverError, db)
  | some app =>
    if app.userId != userId then (.forbidden, db)
    else
      let db1 := { db with apps := db.apps.filter (fun a => !(a.id == appId)) }
      if db1.apps.any (fun a => a.petId == app.petId && a.status == "Pending") then
        (.ok, db1)
      else
        (.ok, setPetStatus db1 app.petId "Available")

/-- The mutating operations of the workflow (approve/reject are reached only
through the admin middleware; withdraw carries the caller's identity, which
the handler checks itself). -/
inductive Op where
  | submit (userId petId : Nat) (msg : Option String)
  | approve (appId : Nat) (notes : Option String)
  | reject (appId : Nat) (notes : Option String)
  | withdraw (userId appId : Nat)
  deriving DecidableEq

/-- Dispatch one request at time `now`. -/
def applyOp (db : DB) (now : Nat) : Op → Resp × DB
  | .submit u p m => submitApplication db now u p m
  | .approve i n => approveApplication db now i n
  | .reject i n => rejectApplication db now i n
  | .withdraw u i => withdrawApplication db u i

/-- Run a sequence of requests, the clock ticking once per request. -/
def run (db : DB) (now : Nat) : List Op → DB
  | [] => db
  | op :: rest => run (applyOp db now op).2 (now + 1) rest

/-- Number of applications for `petId` whose status is `"Approved"`. -/
def countApproved (db : DB) (petId : Nat) : Nat :=
  (db.apps.filter (fun a => a.petId == petId && a.status == "Approved")).length

/-- Number of applications occupying the `(userId, petId)` slot. -/
def countPair (db : DB) (userId petId : Nat) : Nat :=
  (db.apps.filter (fun a => a.userId == userId && a.petId == petId)).length

/-- Number of approve requests in a request sequence. -/
def countApproveOps : List Op → Nat
  | [] => 0
  | .approve _ _ :: rest => countApproveOps rest + 1
  | _ :: rest => countApproveOps rest

/-!
Fine-grained model of two concurrent submissions.  The store is sequentially
consistent per single-record operation, so a racing execution of two
`POST /api/applications` handlers is an interleaving of their four
database accesses:

  pc 0: `Pet.findById` (existence check);
  pc 1: `Application.findOne` (duplicate pre-read);
  pc 2: `Application.create` (commits through the unique index, or the index
         rejects the duplicate and the thrown error becomes a 500);
  pc 3: `Pet.findByIdAndUpdate(..., "Under Review")`, then respond 201.

A request that has responded takes no further steps.
-/

/-- Progress of one in-flight submission request. -/
structure ReqState where
  pc : Nat
  resp : Option Resp
  deriving DecidableEq

/-- One database access of the submission handler for `(userId, petId)`. -/
def submitStep (userId petId now : Nat) (db : DB) (rs : ReqState) : DB × ReqState :=
  match rs.resp with
  | some _ => (db, rs)
  | none =>
    match rs.pc with
    | 0 =>
      if petExists db petId then (db, { rs with pc := 1 })
      else (db, { rs with resp := some .notFound })
    | 1 =>
      if dupExists db userId petId then (db, { rs with resp := some .badRequest })
      else (db, { rs with pc := 2 })
    | 2 =>
      match createUnique db userId petId none now with
      | none => (db, { rs with resp := some .serverError })
      | some db1 => (db1, { rs with pc := 3 })
    | _ => (setPetStatus db petId "Under Review", { rs with resp := some .created })

/-- A racing pair of submissions over the shared store. -/
structure RaceConfig where
  db : DB
  r1 : ReqState
  r2 : ReqState
  deriving DecidableEq

/-- Schedule one step: `true` advances request 1, `false` request 2.  Both
requests carry the same `(userId, petId)` pair — the duplicate-submission
race of the spec. -/
def raceStep (userId petId now : Nat) (c : RaceConfig) (b : Bool) : RaceConfig :=
  if b then
    let (db1, r1) := submitStep userId petId now c.db c.r1
    { c with db := db1, r1 := r1 }
  else
    let (db2, r2) := submitStep userId petId now c.db c.r2
    { c with db := db2, r2 := r2 }

/-- Run a schedule of interleaved steps. -/
def raceRun (userId petId now : Nat) (c : RaceConfig) : List Bool → RaceConfig
  | [] => c
  | b :: rest => raceRun userId petId now (raceStep userId petId now c b) rest

/-- Initial racing configuration: both requests about to start. -/
def raceInit (db : DB) : RaceConfig :=
  { db := db, r1 := { pc := 0, resp := none }, r2 := { pc := 0, resp := none } }

/-! Derived predicates used in the statements and invariants. -/

/-- The spec's per-application invariant: `decidedDate` is set iff the
status is not `Pending`. -/
def decidedConsistent (a : Application) : Prop :=
  a.decidedDate ≠ none ↔ a.status ≠ "Pending"

/-- Application ids are bounded by the fresh-id counter and pairwise
distinct (Mongo `_id`s are unique). -/
def appIdsDistinct (db : DB) : Prop :=
  (∀ a ∈ db.apps, a.id < db.nextId) ∧ db.apps.Pairwise (fun a b => a.id ≠ b.id)

/-- A pet record carrying no adoption bookkeeping (the schema defaults). -/
def noAdoptionInfo (p : Pet) : Prop :=
  p.adoptedBy = none ∧ p.adoptionDate = none

/-- Whether an in-flight submission has committed its ledger insert
(program counter past the `create`). -/
def contrib (rs : ReqState) : Nat :=
  if rs.pc = 3 then 1 else 0

/-- Per-request part of the race invariant. -/
def reqInv (db : DB) (userId petId : Nat) (rs : ReqState) : Prop :=
  rs.pc ≤ 3 ∧
  (rs.resp = some Resp.created → rs.pc = 3) ∧
  (∀ x, rs.resp = some x →
    x = Resp.created ∨ x = Resp.badRequest ∨ x = Resp.serverError) ∧
  ((rs.resp = some Resp.badRequest ∨ rs.resp = some Resp.serverError) →
    rs.pc ≠ 3 ∧ 1 ≤ countPair db userId petId)

/-- Invariant of the two-submission race: the pet stays present, the number
of `(userId, petId)` records equals the number of committed inserts and
never exceeds one, and both requests are well-formed. -/
def raceInv (userId petId : Nat) (c : RaceConfig) : Prop :=
  petExists c.db petId = true ∧
  countPair c.db userId petId = contrib c.r1 + contrib c.r2 ∧
  countPair c.db userId petId ≤ 1 ∧
  reqInv c.db userId petId c.r1 ∧
  reqInv c.db userId petId c.r2

/-- A concrete pet, freshly registered as `"Available"`. -/
def petAvail : Pet :=
  { id := 1, status := "Available", adoptedBy := none, adoptionDate := none }

/-! ## Concrete refutations and failing-input evaluations -/

/-- C1: counterexample — two users submit for pet 1, and the admin approves
both applications in turn; every step succeeds and the final state has two
`Approved` applications for pet 1, so the count is neither 0 nor 1. -/
theorem C1_two_approvals_counterexample :
    ¬(countApproved (run (DB.init [petAvail]) 0
        [Op.submit 1 1 none, Op.submit 2 1 none, Op.approve 0 none, Op.approve 1 none]) 1 = 0 ∨
      countApproved (run (DB.init [petAvail]) 0
        [Op.submit 1 1 none, Op.submit 2 1 none, Op.approve 0 none, Op.approve 1 none]) 1 = 1) := by
  decide

/-- C2: counterexample — after approving application 0, pet 1 is already
`Adopted`, yet approving the still-`Pending` application 1 returns a success
(200), not a conflict, and leaves application 1 `Approved`: both approvals
on the same pet succeed. -/
theorem C2_approve_adopted_pet_counterexample :
    (∃ p ∈ (run (DB.init [petAvail]) 0
        [Op.submit 1 1 none, Op.submit 2 1 none, Op.approve 0 none]).pets,
      p.id = 1 ∧ p.status = "Adopted") ∧
    (∃ a ∈ (run (DB.init [petAvail]) 0
        [Op.submit 1 1 none, Op.submit 2 1 none, Op.approve 0 none]).apps,
      a.id = 1 ∧ a.status = "Pending") ∧
    (approveApplication (run (DB.init [petAvail]) 0
        [Op.submit 1 1 none, Op.submit 2 1 none, Op.approve 0 none]) 3 1 none).1 = Resp.ok ∧
    (∃ a ∈ (approveApplication (run (DB.init [petAvail]) 0
        [Op.submit 1 1 none, Op.submit 2 1 none, Op.approve 0 none]) 3 1 none).2.apps,
      a.id = 1 ∧ a.status = "Approved") := by
  decide

/-- C3: counterexample — in the interleaving where both duplicate pre-reads
run before either insert, the losing submission fails with a 500 from the
unique-index rejection, not with the `DuplicateApplication` (400) response;
still only one application exists for the pair. -/
theorem C3_race_counterexample :
    (raceRun 1 1 0 (raceInit (DB.init [petAvail]))
      [true, false, true, false, true, false, true, false]).r1.resp = some Resp.created ∧
    (raceRun 1 1 0 (raceInit (DB.init [petAvail]))
      [true, false, true, false, true, false, true, false]).r2.resp = some Resp.serverError ∧
    (raceRun 1 1 0 (raceInit (DB.init [petAvail]))
      [true, false, true, false, true, false, true, false]).r2.resp ≠ some Resp.badRequest ∧
    countPair (raceRun 1 1 0 (raceInit (DB.init [petAvail]))
      [true, false, true, false, true, false, true, false]).db 1 1 = 1 := by
  decide

/-- C4: counterexample — pet 1 is `Adopted`, yet a fresh submission by user
2 succeeds and overwrites the pet's status with `"Under Review"`; the claim
said a pet that is neither available nor pending is not modified. -/
theorem C4_submit_overwrites_adopted_counterexample :
    (∃ p ∈ (run (DB.init [petAvail]) 0 [Op.submit 1 1 none, Op.approve 0 none]).pets,
      p.id = 1 ∧ p.status = "Adopted") ∧
    (submitApplication (run (DB.init [petAvail]) 0
        [Op.submit 1 1 none, Op.approve 0 none]) 2 2 1 none).1 = Resp.created ∧
    (∃ p ∈ (submitApplication (run (DB.init [petAvail]) 0
        [Op.submit 1 1 none, Op.approve 0 none]) 2 2 1 none).2.pets,
      p.id = 1 ∧ p.status = "Under Review") := by
  decide

/-- C5: counterexample — after a successful approval the pet's status is
`Adopted` while `adoptedBy` and `adoptionDate` are still unset, refuting the
claimed equivalence and the claimed approval effect on those fields. -/
theorem C5_adopted_without_adopter_counterexample :
    ∃ p ∈ (run (DB.init [petAvail]) 0 [Op.submit 1 1 none, Op.approve 0 none]).pets,
      p.status = "Adopted" ∧ p.adoptedBy = none ∧ p.adoptionDate = none := by
  decide

/-- C6: the code at the failing input — approving, rejecting, or
withdrawing application id 99, which does not exist, dereferences the null
lookup, is caught, and returns 500 (`serverError`), which is not the 404
(`notFound`) outcome; the store is untouched. -/
theorem C6_missing_application_gives_500 :
    approveApplication (DB.init [petAvail]) 0 99 none = (Resp.serverError, DB.init [petAvail]) ∧
    rejectApplication (DB.init [petAvail]) 0 99 none = (Resp.serverError, DB.init [petAvail]) ∧
    withdrawApplication (DB.init [petAvail]) 7 99 = (Resp.serverError, DB.init [petAvail]) ∧
    Resp.serverError ≠ Resp.notFound := by
  decide

/-- C10: counterexample — application 0 is decided (`Rejected`), yet a later
approve overwrites it to `Approved`: decided states are not terminal. -/
theorem C10_redecide_rejected_counterexample :
    (∃ a ∈ (run (DB.init [petAvail]) 0 [Op.submit 1 1 none, Op.reject 0 none]).apps,
      a.id = 0 ∧ a.status = "Rejected") ∧
    (∃ a ∈ (approveApplication (run (DB.init [petAvail]) 0
        [Op.submit 1 1 none, Op.reject 0 none]) 2 0 none).2.apps,
      a.id = 0 ∧ a.status = "Approved") := by
  decide

/-! ## Effect theorems for the four handlers -/

/-- C8: rejecting an existing application (admin path) sets it to
`Rejected` with `decidedDate = now` and the supplied notes, leaves every
other application untouched, and unconditionally sets the referenced pet's
status to `Available`, whatever its current status and whatever other
applications exist. -/
theorem C8_reject_effect (db : DB) (now appId : Nat) (notes : Option String)
    (app : Application) (h : findApp db appId = some app) :
    (rejectApplication db now appId notes).1 = Resp.ok ∧
    (∀ a ∈ (rejectApplication db now appId notes).2.apps, a.id = appId →
      a.status = "Rejected" ∧ a.decidedDate = some now ∧ a.adminNotes = notes) ∧
    (∀ a ∈ (rejectApplication db now appId notes).2.apps, a.id ≠ appId → a ∈ db.apps) ∧
    (∀ p ∈ (rejectApplication db now appId notes).2.pets, p.id = app.petId →
      p.status = "Available") ∧
    (∀ p ∈ (rejectApplication db now appId notes).2.pets, p.id ≠ app.petId → p ∈ db.pets) := by
  simp only [rejectApplication, h, updateApp, setPetStatus]
  refine ⟨by trivial, ?_, ?_, ?_, ?_⟩
  · intro a ha hid
    rcases List.mem_map.1 ha with ⟨a0, ha0, rfl⟩
    by_cases hc : a0.id = appId
    · simp [hc]
    · simp [hc] at hid
  · intro a ha hid
    rcases List.mem_map.1 ha with ⟨a0, ha0, rfl⟩
    by_cases hc : a0.id = appId
    · simp [hc] at hid
    · simpa [hc] using ha0
  · intro p hp hid
    rcases List.mem_map.1 hp with ⟨p0, hp0, rfl⟩
    by_cases hc : p0.id = app.petId
    · simp [hc]
    · simp [hc] at hid
  · intro p hp hid
    rcases List.mem_map.1 hp with ⟨p0, hp0, rfl⟩
    by_cases hc : p0.id = app.petId
    · simp [hc] at hid
    · simpa [hc] using hp0

/-- C8 witness: rejecting the application created by one concrete submit. -/
theorem C8_reject_effect_witness :
    (rejectApplication (run (DB.init [petAvail]) 0 [Op.submit 3 1 none]) 1 0 (some "no")).1 =
      Resp.ok :=
  (C8_reject_effect (run (DB.init [petAvail]) 0 [Op.submit 3 1 none]) 1 0 (some "no")
    { id := 0, userId := 3, petId := 1, status := "Pending", userMessage := none,
      adminNotes := none, appliedDate := 0, decidedDate := none } (by decide)).1

/-- C2 (amended): approving an existing application never checks the pet's
status: it always returns a success, sets the application to `Approved` with
`decidedDate = now` and the supplied notes, and overwrites the referenced
pet's status to `Adopted` — even when the pet is already adopted, so the
losing approval of a race is not reported as a conflict. -/
theorem C2_approve_always_succeeds (db : DB) (now appId : Nat) (notes : Option String)
    (app : Application) (h : findApp db appId = some app) :
    (approveApplication db now appId notes).1 = Resp.ok ∧
    (∀ a ∈ (approveApplication db now appId notes).2.apps, a.id = appId →
      a.status = "Approved" ∧ a.decidedDate = some now ∧ a.adminNotes = notes) ∧
    (∀ a ∈ (approveApplication db now appId notes).2.apps, a.id ≠ appId → a ∈ db.apps) ∧
    (∀ p ∈ (approveApplication db now appId notes).2.pets, p.id = app.petId →
      p.status = "Adopted") := by
  simp only [approveApplication, h, updateApp, setPetStatus]
  refine ⟨by trivial, ?_, ?_, ?_⟩
  · intro a ha hid
    rcases List.mem_map.1 ha with ⟨a0, ha0, rfl⟩
    by_cases hc : a0.id = appId
    · simp [hc]
    · simp [hc] at hid
  · intro a ha hid
    rcases List.mem_map.1 ha with ⟨a0, ha0, rfl⟩
    by_cases hc : a0.id = appId
    · simp [hc] at hid
    · simpa [hc] using ha0
  · intro p hp hid
    rcases List.mem_map.1 hp with ⟨p0, hp0, rfl⟩
    by_cases hc : p0.id = app.petId
    · simp [hc]
    · simp [hc] at hid

/-- C2 witness: approving the single application of a concrete store. -/
theorem C2_approve_always_succeeds_witness :
    (approveApplication (run (DB.init [petAvail]) 0 [Op.submit 1 1 none]) 1 0 none).1 =
      Resp.ok :=
  (C2_approve_always_succeeds (run (DB.init [petAvail]) 0 [Op.submit 1 1 none]) 1 0 none
    { id := 0, userId := 1, petId := 1, status := "Pending", userMessage := none,
      adminNotes := none, appliedDate := 0, decidedDate := none } (by decide)).1

/-- C4 (amended): a successful submission (pet present, `(userId, petId)`
slot free) appends a new application with status `Pending`,
`appliedDate = now` and no `decidedDate`, and then sets the pet's status to
`"Under Review"` (the code's pending state) unconditionally — whatever the
pet's current status was. -/
theorem C4_submit_effect (db : DB) (now userId petId : Nat) (msg : Option String)
    (hpet : petExists db petId = true) (hdup : dupExists db userId petId = false) :
    (submitApplication db now userId petId msg).1 = Resp.created ∧
    (submitApplication db now userId petId msg).2.apps =
      db.apps ++
        [{ id := db.nextId, userId := userId, petId := petId, status := "Pending",
           userMessage := msg, adminNotes := none, appliedDate := now,
           decidedDate := none }] ∧
    (∀ p ∈ (submitApplication db now userId petId msg).2.pets, p.id = petId →
      p.status = "Under Review") ∧
    (∀ p ∈ (submitApplication db now userId petId msg).2.pets, p.id ≠ petId →
      p ∈ db.pets) := by
  simp only [submitApplication, createUnique, hpet, hdup, Bool.not_true, Bool.false_eq_true,
    if_false, setPetStatus]
  refine ⟨by trivial, by trivial, ?_, ?_⟩
  · intro p hp hid
    rcases List.mem_map.1 hp with ⟨p0, hp0, rfl⟩
    by_cases hc : p0.id = petId
    · simp [hc]
    · simp [hc] at hid
  · intro p hp hid
    rcases List.mem_map.1 hp with ⟨p0, hp0, rfl⟩
    by_cases hc : p0.id = petId
    · simp [hc] at hid
    · simpa [hc] using hp0

/-- C4 witness: submitting against a fresh store with one available pet. -/
theorem C4_submit_effect_witness :
    (submitApplication (DB.init [petAvail]) 0 1 1 none).1 = Resp.created :=
  (C4_submit_effect (DB.init [petAvail]) 0 1 1 none (by decide) (by decide)).1

/-- C9: a withdrawal by the owning user deletes the application (exactly the
records with that id disappear), and then the referenced pet's status is set
to `Available` precisely when no remaining application for that pet is still
`Pending`; otherwise the pet registry is untouched. -/
theorem C9_withdraw_effect (db : DB) (userId appId : Nat) (app : Application)
    (h : findApp db appId = some app) (hown : app.userId = userId) :
    (withdrawApplication db userId appId).1 = Resp.ok ∧
    (∀ a, a ∈ (withdrawApplication db userId appId).2.apps ↔
      a ∈ db.apps ∧ a.id ≠ appId) ∧
    ((∃ a ∈ (withdrawApplication db userId appId).2.apps,
        a.petId = app.petId ∧ a.status = "Pending") →
      (withdrawApplication db userId appId).2.pets = db.pets) ∧
    ((¬∃ a ∈ (withdrawApplication db userId appId).2.apps,
        a.petId = app.petId ∧ a.status = "Pending") →
      (∀ p ∈ (withdrawApplication db userId appId).2.pets, p.id = app.petId →
        p.status = "Available") ∧
      (∀ p ∈ (withdrawApplication db userId appId).2.pets, p.id ≠ app.petId →
        p ∈ db.pets)) := by
  have happs : ∀ a : Application,
      a ∈ db.apps.filter (fun a => !(a.id == appId)) ↔ a ∈ db.apps ∧ a.id ≠ appId := by
    intro a
    simp [List.mem_filter]
  rcases hany : (db.apps.filter (fun a => !(a.id == appId))).any
      (fun a => a.petId == app.petId && a.status == "Pending") with _ | _
  · have hres : withdrawApplication db userId appId =
        (Resp.ok, setPetStatus { db with apps := db.apps.filter (fun a => !(a.id == appId)) }
          app.petId "Available") := by
      simp [withdrawApplication, h, hown, hany]
    rw [hres]
    refine ⟨rfl, ?_, ?_, ?_⟩
    · intro a
      simp only [setPetStatus]
      exact happs a
    · intro hex
      exfalso
      rcases hex with ⟨a, ha, hpid, hst⟩
      have : (db.apps.filter (fun a => !(a.id == appId))).any
          (fun a => a.petId == app.petId && a.status == "Pending") = true := by
        simp only [List.any_eq_true]
        refine ⟨a, by simpa [setPetStatus] using ha, ?_⟩
        simp [hpid, hst]
      rw [this] at hany
      exact Bool.true_eq_false.mp hany
    · intro _
      constructor
      · intro p hp hid
        rcases List.mem_map.1 hp with ⟨p0, hp0, rfl⟩
        by_cases hc : p0.id = app.petId
        · simp [hc]
        · simp [hc] at hid
      · intro p hp hid
        rcases List.mem_map.1 hp with ⟨p0, hp0, rfl⟩
        by_cases hc : p0.id = app.petId
        · simp [hc] at hid
        · simpa [hc] using hp0
  · have hres : withdrawApplication db userId appId =
        (Resp.ok, { db with apps := db.apps.filter (fun a => !(a.id == appId)) }) := by
      simp [withdrawApplication, h, hown, hany]
    rw [hres]
    refine ⟨rfl, ?_, ?_, ?_⟩
    · intro a
      exact happs a
    · intro _
      rfl
    · intro hnone
      exfalso
      rcases List.any_eq_true.mp hany with ⟨a, ha, hpa⟩
      rcases (Bool.and_eq_true _ _).mp hpa with ⟨h1, h2⟩
      exact hnone ⟨a, ha, by simpa using h1, by simpa using h2⟩

/-- C9 witness: the owner withdraws the only application for the pet. -/
theorem C9_withdraw_effect_witness :
    (withdrawApplication (run (DB.init [petAvail]) 0 [Op.submit 4 1 none]) 4 0).1 = Resp.ok :=
  (C9_withdraw_effect (run (DB.init [petAvail]) 0 [Op.submit 4 1 none]) 4 0
    { id := 0, userId := 4, petId := 1, status := "Pending", userMessage := none,
      adminNotes := none, appliedDate := 0, decidedDate := none } (by decide) (by decide)).1

/-- C10 (amended): a decided application is not terminal — approve and
reject overwrite the status of an existing application unconditionally, so
an application whose status is already `Approved` or `Rejected` is moved to
the other decision by the opposite operation. -/
theorem C10_decided_not_terminal (db : DB) (now appId : Nat) (notes : Option String)
    (app : Application) (h : findApp db appId = some app) (_hdec : app.status ≠ "Pending") :
    (∀ a ∈ (approveApplication db now appId notes).2.apps, a.id = appId →
      a.status = "Approved") ∧
    (∀ a ∈ (rejectApplication db now appId notes).2.apps, a.id = appId →
      a.status = "Rejected") := by
  constructor
  · simp only [approveApplication, h, updateApp, setPetStatus]
    intro a ha hid
    rcases List.mem_map.1 ha with ⟨a0, ha0, rfl⟩
    by_cases hc : a0.id = appId
    · simp [hc]
    · simp [hc] at hid
  · simp only [rejectApplication, h, updateApp, setPetStatus]
    intro a ha hid
    rcases List.mem_map.1 ha with ⟨a0, ha0, rfl⟩
    by_cases hc : a0.id = appId
    · simp [hc]
    · simp [hc] at hid

/-- C10 witness: the application rejected at time 1 is overwritten to
`Approved` by the later approve at time 2. -/
theorem C10_decided_not_terminal_witness :
    ({ id := 0, userId := 1, petId := 1, status := "Approved", userMessage := none,
       adminNotes := none, appliedDate := 0, decidedDate := some 2 } : Application).status =
      "Approved" :=
  (C10_decided_not_terminal (run (DB.init [petAvail]) 0 [Op.submit 1 1 none, Op.reject 0 none])
      2 0 none
      { id := 0, userId := 1, petId := 1, status := "Rejected", userMessage := none,
        adminNotes := none, appliedDate := 0, decidedDate := some 1 }
      (by decide) (by decide)).1
    { id := 0, userId := 1, petId := 1, status := "Approved", userMessage := none,
      adminNotes := none, appliedDate := 0, decidedDate := some 2 }
    (by decide) (by decide)

/-! ## Reachable-state invariants -/

/-- Every application a single operation leaves in the store satisfies the
decided-date discipline if every application before it did: submission
appends a `Pending` record with no `decidedDate`, the two decisions set
`decidedDate` together with a non-`Pending` status, withdrawal only
removes records. -/
theorem decidedConsistent_applyOp (db : DB) (now : Nat) (op : Op)
    (h : ∀ a ∈ db.apps, decidedConsistent a) :
    ∀ a ∈ (applyOp db now op).2.apps, decidedConsistent a := by
  cases op with
  | submit u p m =>
    rcases hx : petExists db p with _ | _
    · simpa [applyOp, submitApplication, hx] using h
    · rcases hd : dupExists db u p with _ | _
      · intro a ha
        simp only [applyOp, submitApplication, hx, hd, createUnique, Bool.not_true,
          Bool.false_eq_true, if_false, setPetStatus] at ha
        rcases List.mem_append.1 ha with ha | ha
        · exact h a ha
        · simp only [List.mem_singleton] at ha
          subst ha
          simp [decidedConsistent, newApp]
      · simpa [applyOp, submitApplication, hx, hd] using h
  | approve i n =>
    rcases hf : findApp db i with _ | app
    · simpa [applyOp, approveApplication, hf] using h
    · intro a ha
      simp only [applyOp, approveApplication, hf, updateApp, setPetStatus] at ha
      rcases List.mem_map.1 ha with ⟨a0, ha0, rfl⟩
      by_cases hc : a0.id = i
      · simp [hc, decidedConsistent]
      · simpa [hc] using h a0 ha0
  | reject i n =>
    rcases hf : findApp db i with _ | app
    · simpa [applyOp, rejectApplication, hf] using h
    · intro a ha
      simp only [applyOp, rejectApplication, hf, updateApp, setPetStatus] at ha
      rcases List.mem_map.1 ha with ⟨a0, ha0, rfl⟩
      by_cases hc : a0.id = i
      · simp [hc, decidedConsistent]
      · simpa [hc] using h a0 ha0
  | withdraw u i =>
    rcases hf : findApp db i with _ | app
    · simpa [applyOp, withdrawApplication, hf] using h
    · rcases ho : (app.userId != u) with _ | _
      · rcases hany : ((db.apps.filter (fun a => !(a.id == i))).any
            (fun a => a.petId == app.petId && a.status == "Pending")) with _ | _
        · intro a ha
          simp only [applyOp, withdrawApplication, hf, ho, hany, Bool.false_eq_true,
            if_false, setPetStatus] at ha
          exact h a (List.mem_filter.1 ha).1
        · intro a ha
          simp only [applyOp, withdrawApplication, hf, ho, hany, if_true] at ha
          exact h a (List.mem_filter.1 ha).1
      · simpa [applyOp, withdrawApplication, hf, ho] using h

/-- The decided-date discipline is preserved along any request sequence. -/
theorem decidedConsistent_run (db : DB) (now : Nat) (ops : List Op)
    (h : ∀ a ∈ db.apps, decidedConsistent a) :
    ∀ a ∈ (run db now ops).apps, decidedConsistent a := by
  induction ops generalizing db now with
  | nil => exact h
  | cons op rest ih => exact ih _ _ (decidedConsistent_applyOp db now op h)

/-- C7: in every state reachable by submit/approve/reject/withdraw requests
from an empty ledger, an application's `decidedDate` is set if and only if
its status is not `Pending`. -/
theorem C7_decidedDate_iff_not_pending (pets0 : List Pet) (now : Nat) (ops : List Op)
    (a : Application) (ha : a ∈ (run (DB.init pets0) now ops).apps) :
    a.decidedDate ≠ none ↔ a.status ≠ "Pending" :=
  decidedConsistent_run (DB.init pets0) now ops (by simp [DB.init]) a ha

/-- C7 witness: the invariant read off the application created by one
concrete submission. -/
theorem C7_decidedDate_iff_not_pending_witness :
    ({ id := 0, userId := 1, petId := 1, status := "Pending", userMessage := none,
       adminNotes := none, appliedDate := 0, decidedDate := none } : Application).decidedDate ≠
        none ↔
      ({ id := 0, userId := 1, petId := 1, status := "Pending", userMessage := none,
         adminNotes := none, appliedDate := 0, decidedDate := none } : Application).status ≠
        "Pending" :=
  C7_decidedDate_iff_not_pending [petAvail] 0 [Op.submit 1 1 none]
    { id := 0, userId := 1, petId := 1, status := "Pending", userMessage := none,
      adminNotes := none, appliedDate := 0, decidedDate := none } (by decide)

/-- `setPetStatus` touches only the `status` field, so pets carrying no
adoption bookkeeping keep carrying none. -/
theorem noAdoptionInfo_setPetStatus (db : DB) (petId : Nat) (s : String)
    (h : ∀ p ∈ db.pets, noAdoptionInfo p) :
    ∀ p ∈ (setPetStatus db petId s).pets, noAdoptionInfo p := by
  intro p hp
  simp only [setPetStatus] at hp
  rcases List.mem_map.1 hp with ⟨p0, hp0, rfl⟩
  by_cases hc : p0.id = petId
  · simpa [hc, noAdoptionInfo] using h p0 hp0
  · simpa [hc] using h p0 hp0

/-- No handler writes `adoptedBy` or `adoptionDate`: every pet update in the
routes goes through a `{ status: ... }` payload. -/
theorem noAdoptionInfo_applyOp (db : DB) (now : Nat) (op : Op)
    (h : ∀ p ∈ db.pets, noAdoptionInfo p) :
    ∀ p ∈ (applyOp db now op).2.pets, noAdoptionInfo p := by
  cases op with
  | submit u p m =>
    rcases hx : petExists db p with _ | _
    · simpa [applyOp, submitApplication, hx] using h
    · rcases hd : dupExists db u p with _ | _
      · simp only [applyOp, submitApplication, hx, hd, createUnique, Bool.not_true,
          Bool.false_eq_true, if_false]
        exact noAdoptionInfo_setPetStatus _ _ _ h
      · simpa [applyOp, submitApplication, hx, hd] using h
  | approve i n =>
    rcases hf : findApp db i with _ | app
    · simpa [applyOp, approveApplication, hf] using h
    · simp only [applyOp, approveApplication, hf]
      exact noAdoptionInfo_setPetStatus _ _ _ h
  | reject i n =>
    rcases hf : findApp db i with _ | app
    · simpa [applyOp, rejectApplication, hf] using h
    · simp only [applyOp, rejectApplication, hf]
      exact noAdoptionInfo_setPetStatus _ _ _ h
  | withdraw u i =>
    rcases hf : findApp db i with _ | app
    · simpa [applyOp, withdrawApplication, hf] using h
    · rcases ho : (app.userId != u) with _ | _
      · rcases hany : ((db.apps.filter (fun a => !(a.id == i))).any
            (fun a => a.petId == app.petId && a.status == "Pending")) with _ | _
        · simp only [applyOp, withdrawApplication, hf, ho, hany, Bool.false_eq_true, if_false]
          exact noAdoptionInfo_setPetStatus _ _ _ h
        · simpa [applyOp, withdrawApplication, hf, ho, hany] using h
      · simpa [applyOp, withdrawApplication, hf, ho] using h

/-- Absence of adoption bookkeeping is preserved along any request
sequence. -/
theorem noAdoptionInfo_run (db : DB) (now : Nat) (ops : List Op)
    (h : ∀ p ∈ db.pets, noAdoptionInfo p) :
    ∀ p ∈ (run db now ops).pets, noAdoptionInfo p := by
  induction ops generalizing db now with
  | nil => exact h
  | cons op rest ih => exact ih _ _ (noAdoptionInfo_applyOp db now op h)

/-- C5 (amended): no route ever writes `adoptedBy` or `adoptionDate` —
starting from pets whose adoption fields are unset (the schema default),
both fields remain unset in every reachable state, even though approvals do
set pets' status to `Adopted`; so `status = adopted` never implies the
fields are set. -/
theorem C5_adoption_fields_never_set (pets0 : List Pet) (now : Nat) (ops : List Op)
    (h0 : ∀ p ∈ pets0, noAdoptionInfo p) :
    ∀ p ∈ (run (DB.init pets0) now ops).pets, p.adoptedBy = none ∧ p.adoptionDate = none :=
  noAdoptionInfo_run (DB.init pets0) now ops h0

/-- C5 witness: the pet left `Adopted` by a concrete submit-then-approve
still has both adoption fields unset. -/
theorem C5_adoption_fields_never_set_witness :
    ({ id := 1, status := "Adopted", adoptedBy := none, adoptionDate := none } : Pet).adoptedBy =
        none ∧
      ({ id := 1, status := "Adopted", adoptedBy := none,
         adoptionDate := none } : Pet).adoptionDate = none :=
  C5_adoption_fields_never_set [petAvail] 0 [Op.submit 1 1 none, Op.approve 0 none]
    (by simp [petAvail, noAdoptionInfo])
    { id := 1, status := "Adopted", adoptedBy := none, adoptionDate := none } (by decide)

/-! ## The Approved-count bound (C1) -/

/-- Mapping a function that can only turn matches off does not increase a
filter count. -/
theorem length_filter_map_le (l : List Application) (g : Application → Application)
    (q : Application → Bool) (h : ∀ a ∈ l, q (g a) = true → q a = true) :
    ((l.map g).filter q).length ≤ (l.filter q).length := by
  induction l with
  | nil => simp
  | cons x xs ih =>
    have hx := h x (List.mem_cons_self x xs)
    have ihx := ih (fun a ha hq => h a (List.mem_cons_of_mem x ha) hq)
    simp only [List.map_cons, List.filter_cons]
    rcases hq : q (g x) with _ | _
    · rcases hq2 : q x with _ | _
      · simpa using ihx
      · simp only [List.length_cons]
        exact Nat.le_succ_of_le ihx
    · have hq2 : q x = true := hx hq
      simp only [hq2, List.length_cons]
      exact Nat.succ_le_succ ihx

/-- An id-keyed update is the identity on a list containing no such id. -/
theorem map_update_eq_self (l : List Application) (i : Nat) (f : Application → Application)
    (h : ∀ a ∈ l, a.id ≠ i) :
    l.map (fun a => if a.id == i then f a else a) = l := by
  induction l with
  | nil => rfl
  | cons x xs ih =>
    have hx : (x.id == i) = false := by
      simp [h x (List.mem_cons_self x xs)]
    simp only [List.map_cons, hx, Bool.false_eq_true, if_false, List.cons.injEq, true_and]
    exact ih (fun a ha => h a (List.mem_cons_of_mem x ha))

/-- Updating the (unique) record with a given id raises a filter count by at
most one. -/
theorem length_filter_update_le (l : List Application) (i : Nat)
    (f : Application → Application) (q : Application → Bool)
    (hnd : l.Pairwise (fun a b => a.id ≠ b.id)) :
    ((l.map (fun a => if a.id == i then f a else a)).filter q).length ≤
      (l.filter q).length + 1 := by
  induction l with
  | nil => simp
  | cons x xs ih =>
    rcases List.pairwise_cons.1 hnd with ⟨hx, hxs⟩
    by_cases hc : x.id = i
    · have htail : xs.map (fun a => if a.id == i then f a else a) = xs := by
        refine map_update_eq_self xs i f (fun a ha hai => ?_)
        exact hx a ha (by rw [hc, hai])
      simp only [List.map_cons, hc, beq_self_eq_true, if_true, htail, List.filter_cons]
      rcases hq : q (f x) with _ | _ <;> rcases hq2 : q x with _ | _ <;>
        simp [hq, hq2] <;> omega
    · have hx' : (x.id == i) = false := by simp [hc]
      simp only [List.map_cons, hx', Bool.false_eq_true, if_false, List.filter_cons]
      rcases hq2 : q x with _ | _
      · exact ih hxs
      · simp only [List.length_cons]
        exact Nat.succ_le_succ (ih hxs)

/-- Each operation keeps the application ids pairwise distinct and below
the fresh-id counter. -/
theorem appIdsDistinct_applyOp (db : DB) (now : Nat) (op : Op)
    (h : appIdsDistinct db) :
    appIdsDistinct (applyOp db now op).2 := by
  obtain ⟨hlt, hnd⟩ := h
  cases op with
  | submit u p m =>
    rcases hx : petExists db p with _ | _
    · simpa [applyOp, submitApplication, hx, appIdsDistinct] using ⟨hlt, hnd⟩
    · rcases hd : dupExists db u p with _ | _
      · simp only [applyOp, submitApplication, hx, hd, createUnique, Bool.not_true,
          Bool.false_eq_true, if_false, appIdsDistinct, setPetStatus]
        constructor
        · intro a ha
          rcases List.mem_append.1 ha with ha | ha
          · exact Nat.lt_succ_of_lt (hlt a ha)
          · simp only [List.mem_singleton] at ha
            subst ha
            simp [newApp]
        · rw [List.pairwise_append]
          refine ⟨hnd, by simp, ?_⟩
          intro a ha b hb
          simp only [List.mem_singleton] at hb
          subst hb
          simp only [newApp]
          exact Nat.ne_of_lt (hlt a ha)
      · simpa [applyOp, submitApplication, hx, hd, appIdsDistinct] using ⟨hlt, hnd⟩
  | approve i n =>
    rcases hf : findApp db i with _ | app
    · simpa [applyOp, approveApplication, hf, appIdsDistinct] using ⟨hlt, hnd⟩
    · simp only [applyOp, approveApplication, hf, updateApp, setPetStatus, appIdsDistinct]
      constructor
      · intro a ha
        rcases List.mem_map.1 ha with ⟨a0, ha0, rfl⟩
        by_cases hc : a0.id = i <;> simpa [hc] using hlt a0 ha0
      · rw [List.pairwise_map]
        have hid : ∀ a : Application,
            (if a.id == i then
              { a with status := "Approved", adminNotes := n, decidedDate := some now }
            else a).id = a.id := by
          intro a
          by_cases hc : a.id = i <;> simp [hc]
        exact hnd.imp (fun hne => by simp only [hid]; exact hne)
  | reject i n =>
    rcases hf : findApp db i with _ | app
    · simpa [applyOp, rejectApplication, hf, appIdsDistinct] using ⟨hlt, hnd⟩
    · simp only [applyOp, rejectApplication, hf, updateApp, setPetStatus, appIdsDistinct]
      constructor
      · intro a ha
        rcases List.mem_map.1 ha with ⟨a0, ha0, rfl⟩
        by_cases hc : a0.id = i <;> simpa [hc] using hlt a0 ha0
      · rw [List.pairwise_map]
        have hid : ∀ a : Application,
            (if a.id == i then
              { a with status := "Rejected", adminNotes := n, decidedDate := some now }
            else a).id = a.id := by
          intro a
          by_cases hc : a.id = i <;> simp [hc]
        exact hnd.imp (fun hne => by simp only [hid]; exact hne)
  | withdraw u i =>
    rcases hf : findApp db i with _ | app
    · simpa [applyOp, withdrawApplication, hf, appIdsDistinct] using ⟨hlt, hnd⟩
    · rcases ho : (app.userId != u) with _ | _
      · rcases hany : ((db.apps.filter (fun a => !(a.id == i))).any
            (fun a => a.petId == app.petId && a.status == "Pending")) with _ | _
        · simp only [applyOp, withdrawApplication, hf, ho, hany, Bool.false_eq_true,
            if_false, setPetStatus, appIdsDistinct]
          refine ⟨fun a ha => hlt a (List.mem_filter.1 ha).1, ?_⟩
          exact hnd.sublist (List.filter_sublist db.apps)
        · simp only [applyOp, withdrawApplication, hf, ho, hany, if_true, appIdsDistinct]
          refine ⟨fun a ha => hlt a (List.mem_filter.1 ha).1, ?_⟩
          exact hnd.sublist (List.filter_sublist db.apps)
      · simpa [applyOp, withdrawApplication, hf, ho, appIdsDistinct] using ⟨hlt, hnd⟩

/-- One request raises the `Approved` count of a pet by at most one, and
only when it is an approve request. -/
theorem countApproved_applyOp_le (db : DB) (now : Nat) (op : Op) (petId : Nat)
    (h : appIdsDistinct db) :
    countApproved (applyOp db now op).2 petId ≤
      countApproved db petId + countApproveOps [op] := by
  obtain ⟨hlt, hnd⟩ := h
  cases op with
  | submit u p m =>
    rcases hx : petExists db p with _ | _
    · simp [applyOp, submitApplication, hx, countApproveOps]
    · rcases hd : dupExists db u p with _ | _
      · simp only [applyOp, submitApplication, hx, hd, createUnique, Bool.not_true,
          Bool.false_eq_true, if_false, countApproved, setPetStatus, countApproveOps,
          List.filter_append]
        simp [newApp]
      · simp [applyOp, submitApplication, hx, hd, countApproveOps]
  | approve i n =>
    rcases hf : findApp db i with _ | app
    · simp [applyOp, approveApplication, hf, countApproveOps]
    · simp only [applyOp, approveApplication, hf, updateApp, setPetStatus, countApproved,
        countApproveOps]
      exact length_filter_update_le db.apps i _ _ hnd
  | reject i n =>
    rcases hf : findApp db i with _ | app
    · simp [applyOp, rejectApplication, hf, countApproveOps]
    · simp only [applyOp, rejectApplication, hf, updateApp, setPetStatus, countApproved,
        countApproveOps]
      refine Nat.le_trans (length_filter_map_le db.apps _ _ ?_) (Nat.le_refl _)
      intro a ha hq
      by_cases hc : a.id = i
      · simp [hc] at hq
      · simpa [hc] using hq
  | withdraw u i =>
    rcases hf : findApp db i with _ | app
    · simp [applyOp, withdrawApplication, hf, countApproveOps]
    · rcases ho : (app.userId != u) with _ | _
      · rcases hany : ((db.apps.filter (fun a => !(a.id == i))).any
            (fun a => a.petId == app.petId && a.status == "Pending")) with _ | _
        · simp only [applyOp, withdrawApplication, hf, ho, hany, Bool.false_eq_true,
            if_false, setPetStatus, countApproved, countApproveOps]
          exact Nat.le_add_right_of_le
            (List.Sublist.length_le (((List.filter_sublist db.apps).filter _)))
        · simp only [applyOp, withdrawApplication, hf, ho, hany, if_true, countApproved,
            countApproveOps]
          exact Nat.le_add_right_of_le
            (List.Sublist.length_le (((List.filter_sublist db.apps).filter _)))
      · simp [applyOp, withdrawApplication, hf, ho, countApproveOps]

/-- Along a request sequence, a pet's `Approved` count grows by at most the
number of approve requests. -/
theorem countApproved_run_le (db : DB) (now : Nat) (ops : List Op) (petId : Nat)
    (h : appIdsDistinct db) :
    countApproved (run db now ops) petId ≤ countApproved db petId + countApproveOps ops := by
  induction ops generalizing db now with
  | nil => simp [run]
  | cons op rest ih =>
    have h1 := countApproved_applyOp_le db now op petId h
    have h2 := ih (applyOp db now op).2 (now + 1) (appIdsDistinct_applyOp db now op h)
    have h3 : countApproveOps (op :: rest) = countApproveOps [op] + countApproveOps rest := by
      cases op <;> simp [countApproveOps] <;> omega
    rw [run, h3]
    omega

/-- C1 (amended): from an empty ledger, the number of `Approved`
applications a pet carries is bounded only by the number of approve
requests issued — it is 0 or 1 when at most one approve is issued, but the
handler has no guard, so two approvals on the same pet produce two
`Approved` applications. -/
theorem C1_approved_count_le_approve_ops (pets0 : List Pet) (now : Nat) (ops : List Op)
    (petId : Nat) :
    countApproved (run (DB.init pets0) now ops) petId ≤ countApproveOps ops := by
  have h0 : appIdsDistinct (DB.init pets0) := by
    constructor <;> simp [DB.init]
  have h := countApproved_run_le (DB.init pets0) now ops petId h0
  simpa [countApproved, DB.init] using h

/-! ## The duplicate-submission race (C3) -/

/-- Changing a pet's status does not add or remove pets. -/
theorem petExists_setPetStatus (db : DB) (q : Nat) (s : String) (p : Nat) :
    petExists (setPetStatus db q s) p = petExists db p := by
  rcases db with ⟨pets, apps, n⟩
  simp only [petExists, setPetStatus]
  induction pets with
  | nil => rfl
  | cons x xs ih =>
    simp only [List.map_cons, List.any_cons]
    rw [ih]
    congr 1
    by_cases hc : x.id = q <;> simp [hc]

/-- A status write leaves the application ledger untouched. -/
theorem countPair_setPetStatus (db : DB) (q : Nat) (s : String) (u p : Nat) :
    countPair (setPetStatus db q s) u p = countPair db u p := rfl

/-- If the pre-read sees a duplicate, at least one `(userId, petId)` record
exists. -/
theorem countPair_pos_of_dup (db : DB) (u p : Nat) (h : dupExists db u p = true) :
    1 ≤ countPair db u p := by
  rcases List.any_eq_true.mp h with ⟨a, ha, hpa⟩
  have : a ∈ db.apps.filter (fun a => a.userId == u && a.petId == p) :=
    List.mem_filter.2 ⟨ha, hpa⟩
  have := List.length_pos.mpr (List.ne_nil_of_mem this)
  simpa [countPair] using this

/-- If the pre-read sees no duplicate, no `(userId, petId)` record exists. -/
theorem countPair_zero_of_not_dup (db : DB) (u p : Nat) (h : dupExists db u p = false) :
    countPair db u p = 0 := by
  simp only [countPair, List.length_eq_zero]
  rw [List.filter_eq_nil_iff]
  intro a ha
  have := List.any_eq_false.mp h a ha
  simpa using this

/-- A committed unique insert: the pet registry is untouched, the new
ledger has exactly one more record for the pair, and the pre-insert count
was zero. -/
theorem createUnique_some (db db1 : DB) (u p : Nat) (m : Option String) (now : Nat)
    (h : createUnique db u p m now = some db1) :
    db1.pets = db.pets ∧ countPair db u p = 0 ∧
      countPair db1 u p = countPair db u p + 1 := by
  rcases hd : dupExists db u p with _ | _
  · simp only [createUnique, hd, Bool.false_eq_true, if_false, Option.some.injEq] at h
    subst h
    refine ⟨rfl, countPair_zero_of_not_dup db u p hd, ?_⟩
    simp [countPair, List.filter_append, newApp]
  · simp [createUnique, hd] at h

/-- A rejected unique insert means a record for the pair already exists. -/
theorem createUnique_none (db : DB) (u p : Nat) (m : Option String) (now : Nat)
    (h : createUnique db u p m now = none) :
    1 ≤ countPair db u p := by
  rcases hd : dupExists db u p with _ | _
  · simp [createUnique, hd] at h
  · exact countPair_pos_of_dup db u p hd

/-- The per-request invariant only reads the store through the pair count,
so it survives any step that does not decrease that count. -/
theorem reqInv_mono (db db' : DB) (u p : Nat) (rs : ReqState)
    (h : reqInv db u p rs) (hc : countPair db u p ≤ countPair db' u p) :
    reqInv db' u p rs := by
  obtain ⟨h1, h2, h3, h4⟩ := h
  refine ⟨h1, h2, h3, fun hf => ?_⟩
  obtain ⟨ha, hb⟩ := h4 hf
  exact ⟨ha, Nat.le_trans hb hc⟩

/-- One database access of an in-flight submission preserves the race
invariant pieces, with the other request's committed-insert count `k` held
fixed, and never decreases the pair count. -/
theorem submitStep_inv (u p now : Nat) (db : DB) (rs : ReqState) (k : Nat)
    (hpet : petExists db p = true)
    (hcount : countPair db u p = contrib rs + k)
    (hle : countPair db u p ≤ 1)
    (hreq : reqInv db u p rs) :
    petExists (submitStep u p now db rs).1 p = true ∧
    countPair (submitStep u p now db rs).1 u p = contrib (submitStep u p now db rs).2 + k ∧
    countPair (submitStep u p now db rs).1 u p ≤ 1 ∧
    reqInv (submitStep u p now db rs).1 u p (submitStep u p now db rs).2 ∧
    countPair db u p ≤ countPair (submitStep u p now db rs).1 u p := by
  obtain ⟨hpc, hcr, hallow, hfail⟩ := hreq
  rcases rs with ⟨pc, resp⟩
  rcases resp with _ | x
  · dsimp only at hpc hcr hallow hfail hcount
    interval_cases pc
    · -- pc = 0: the pet-existence read succeeds
      have hstep : submitStep u p now db ⟨0, none⟩ = (db, ⟨1, none⟩) := by
        simp [submitStep, hpet]
      rw [hstep]
      dsimp only
      have hc0 : contrib (⟨0, none⟩ : ReqState) = 0 := rfl
      have hc1 : contrib (⟨1, none⟩ : ReqState) = 0 := rfl
      rw [hc0] at hcount
      rw [hc1]
      exact ⟨hpet, hcount, hle,
        ⟨by decide, fun h => Option.noConfusion h, fun y hy => Option.noConfusion hy,
         fun hf => by rcases hf with hf | hf <;> exact Option.noConfusion hf⟩,
        Nat.le_refl _⟩
    · -- pc = 1: the duplicate pre-read
      rcases hd : dupExists db u p with _ | _
      · have hstep : submitStep u p now db ⟨1, none⟩ = (db, ⟨2, none⟩) := by
          simp [submitStep, hd]
        rw [hstep]
        dsimp only
        have hc1 : contrib (⟨1, none⟩ : ReqState) = 0 := rfl
        have hc2 : contrib (⟨2, none⟩ : ReqState) = 0 := rfl
        rw [hc1] at hcount
        rw [hc2]
        exact ⟨hpet, hcount, hle,
          ⟨by decide, fun h => Option.noConfusion h, fun y hy => Option.noConfusion hy,
           fun hf => by rcases hf with hf | hf <;> exact Option.noConfusion hf⟩,
          Nat.le_refl _⟩
      · have hstep : submitStep u p now db ⟨1, none⟩ = (db, ⟨1, some Resp.badRequest⟩) := by
          simp [submitStep, hd]
        rw [hstep]
        dsimp only
        have hc1 : contrib (⟨1, none⟩ : ReqState) = 0 := rfl
        have hc1b : contrib (⟨1, some Resp.badRequest⟩ : ReqState) = 0 := rfl
        rw [hc1] at hcount
        rw [hc1b]
        refine ⟨hpet, hcount, hle, ⟨by decide, ?_, ?_, ?_⟩, Nat.le_refl _⟩
        · intro h
          exact absurd h (by decide)
        · intro y hy
          injection hy with h
          subst h
          decide
        · intro _
          exact ⟨by decide, countPair_pos_of_dup db u p hd⟩
    · -- pc = 2: the insert through the unique index
      rcases hcu : createUnique db u p none now with _ | db1
      · have hstep : submitStep u p now db ⟨2, none⟩ = (db, ⟨2, some Resp.serverError⟩) := by
          simp [submitStep, hcu]
        rw [hstep]
        dsimp only
        have hc2 : contrib (⟨2, none⟩ : ReqState) = 0 := rfl
        have hc2b : contrib (⟨2, some Resp.serverError⟩ : ReqState) = 0 := rfl
        rw [hc2] at hcount
        rw [hc2b]
        refine ⟨hpet, hcount, hle, ⟨by decide, ?_, ?_, ?_⟩, Nat.le_refl _⟩
        · intro h
          exact absurd h (by decide)
        · intro y hy
          injection hy with h
          subst h
          decide
        · intro _
          exact ⟨by decide, createUnique_none db u p none now hcu⟩
      · obtain ⟨hpets, hzero, hinc⟩ := createUnique_some db db1 u p none now hcu
        have hstep : submitStep u p now db ⟨2, none⟩ = (db1, ⟨3, none⟩) := by
          simp [submitStep, hcu]
        rw [hstep]
        dsimp only
        have hc2 : contrib (⟨2, none⟩ : ReqState) = 0 := rfl
        have hc3 : contrib (⟨3, none⟩ : ReqState) = 1 := rfl
        rw [hc2] at hcount
        rw [hc3]
        have hpet1 : petExists db1 p = true := by
          rcases db with ⟨ps, as, n⟩
          rcases db1 with ⟨ps1, as1, n1⟩
          simp only at hpets
          simpa [petExists, hpets] using hpet
        refine ⟨hpet1, by omega, by omega,
          ⟨by decide, fun h => Option.noConfusion h, fun y hy => Option.noConfusion hy,
           fun hf => by rcases hf with hf | hf <;> exact Option.noConfusion hf⟩,
          by omega⟩
    · -- pc = 3: the pet-status write, then the 201 response
      have hstep : submitStep u p now db ⟨3, none⟩ =
          (setPetStatus db p "Under Review", ⟨3, some Resp.created⟩) := by
        simp [submitStep]
      rw [hstep]
      dsimp only
      rw [petExists_setPetStatus, countPair_setPetStatus]
      have hc3 : contrib (⟨3, none⟩ : ReqState) = 1 := rfl
      have hc3b : contrib (⟨3, some Resp.created⟩ : ReqState) = 1 := rfl
      rw [hc3] at hcount
      rw [hc3b]
      refine ⟨hpet, hcount, hle, ⟨by decide, fun _ => rfl, ?_, ?_⟩, Nat.le_refl _⟩
      · intro y hy
        injection hy with h
        subst h
        decide
      · intro hf
        rcases hf with hf | hf <;> exact absurd hf (by decide)
  · -- a finished request takes no step
    have hstep : submitStep u p now db ⟨pc, some x⟩ = (db, ⟨pc, some x⟩) := by
      simp [submitStep]
    rw [hstep]
    dsimp only
    exact ⟨hpet, hcount, hle, ⟨hpc, hcr, hallow, hfail⟩, Nat.le_refl _⟩

/-- Scheduling either request preserves the race invariant. -/
theorem raceStep_inv (u p now : Nat) (c : RaceConfig) (b : Bool)
    (h : raceInv u p c) : raceInv u p (raceStep u p now c b) := by
  obtain ⟨hpet, hcount, hle, h1, h2⟩ := h
  rcases b with _ | _
  · rcases hs : submitStep u p now c.db c.r2 with ⟨db2, r2⟩
    have hinv := submitStep_inv u p now c.db c.r2 (contrib c.r1) hpet (by omega) hle h2
    rw [hs] at hinv
    dsimp only at hinv
    obtain ⟨ha, hb, hc, hd, he⟩ := hinv
    have hstep : raceStep u p now c false = { db := db2, r1 := c.r1, r2 := r2 } := by
      simp [raceStep, hs]
    rw [hstep]
    exact ⟨ha, by dsimp only; omega, hc, reqInv_mono c.db db2 u p c.r1 h1 (by omega), hd⟩
  · rcases hs : submitStep u p now c.db c.r1 with ⟨db1, r1⟩
    have hinv := submitStep_inv u p now c.db c.r1 (contrib c.r2) hpet (by omega) hle h1
    rw [hs] at hinv
    dsimp only at hinv
    obtain ⟨ha, hb, hc, hd, he⟩ := hinv
    have hstep : raceStep u p now c true = { db := db1, r1 := r1, r2 := c.r2 } := by
      simp [raceStep, hs]
    rw [hstep]
    exact ⟨ha, by dsimp only; omega, hc, hd, reqInv_mono c.db db1 u p c.r2 h2 (by omega)⟩

/-- The race invariant holds along any schedule. -/
theorem raceRun_inv (u p now : Nat) (c : RaceConfig) (s : List Bool)
    (h : raceInv u p c) : raceInv u p (raceRun u p now c s) := by
  induction s generalizing c with
  | nil => exact h
  | cons b rest ih => exact ih _ (raceStep_inv u p now c b h)

/-- The race invariant holds initially when the pet exists and the pair
slot is free. -/
theorem raceInv_init (db0 : DB) (u p : Nat)
    (hpet : petExists db0 p = true) (hdup : dupExists db0 u p = false) :
    raceInv u p (raceInit db0) := by
  have h0 := countPair_zero_of_not_dup db0 u p hdup
  refine ⟨?_, ?_, ?_, ?_, ?_⟩ <;> dsimp only [raceInit]
  · exact hpet
  · rw [h0]
    decide
  · omega
  · exact ⟨by decide, fun h => Option.noConfusion h, fun y hy => Option.noConfusion hy,
      fun hf => by rcases hf with hf | hf <;> exact Option.noConfusion hf⟩
  · exact ⟨by decide, fun h => Option.noConfusion h, fun y hy => Option.noConfusion hy,
      fun hf => by rcases hf with hf | hf <;> exact Option.noConfusion hf⟩

/-- C3 (amended): two racing submissions for the same `(userId, petId)`
pair, under any interleaving of their database accesses that lets both
finish, produce exactly one 201 success; the loser fails — with the 400
`DuplicateApplication` response when its pre-read sees the winner's insert,
or with a 500 when the unique index rejects its insert — and the ledger
holds exactly one application for the pair.  (The claim's "fails with
DuplicateApplication" does not hold for the 500 interleavings.) -/
theorem C3_race_one_insert (db0 : DB) (u p now : Nat) (s : List Bool)
    (hpet : petExists db0 p = true) (hdup : dupExists db0 u p = false)
    (h1 : (raceRun u p now (raceInit db0) s).r1.resp ≠ none)
    (h2 : (raceRun u p now (raceInit db0) s).r2.resp ≠ none) :
    (((raceRun u p now (raceInit db0) s).r1.resp = some Resp.created ∧
      ((raceRun u p now (raceInit db0) s).r2.resp = some Resp.badRequest ∨
       (raceRun u p now (raceInit db0) s).r2.resp = some Resp.serverError)) ∨
     ((raceRun u p now (raceInit db0) s).r2.resp = some Resp.created ∧
      ((raceRun u p now (raceInit db0) s).r1.resp = some Resp.badRequest ∨
       (raceRun u p now (raceInit db0) s).r1.resp = some Resp.serverError))) ∧
    countPair (raceRun u p now (raceInit db0) s).db u p = 1 := by
  have hinv := raceRun_inv u p now (raceInit db0) s (raceInv_init db0 u p hpet hdup)
  set c := raceRun u p now (raceInit db0) s with hcdef
  obtain ⟨hpet', hcount, hle, hr1, hr2⟩ := hinv
  obtain ⟨hpc1, hcr1, hallow1, hfail1⟩ := hr1
  obtain ⟨hpc2, hcr2, hallow2, hfail2⟩ := hr2
  rcases hx : c.r1.resp with _ | x
  · exact absurd hx h1
  rcases hy : c.r2.resp with _ | y
  · exact absurd hy h2
  have hax := hallow1 x hx
  have hay := hallow2 y hy
  rcases hax with rfl | hax
  · have hp1 := hcr1 hx
    have c1 : contrib c.r1 = 1 := by simp [contrib, hp1]
    rcases hay with rfl | hay
    · have hp2 := hcr2 hy
      have c2 : contrib c.r2 = 1 := by simp [contrib, hp2]
      exfalso
      omega
    · have hy2 : some y = some Resp.badRequest ∨ some y = some Resp.serverError := by
        rcases hay with rfl | rfl
        · exact Or.inl rfl
        · exact Or.inr rfl
      have hyf : c.r2.resp = some Resp.badRequest ∨ c.r2.resp = some Resp.serverError := by
        rw [hy]
        exact hy2
      have hf2 := hfail2 hyf
      have c2 : contrib c.r2 = 0 := by simp [contrib, hf2.1]
      exact ⟨Or.inl ⟨rfl, hy2⟩, by omega⟩
  · have hx2 : some x = some Resp.badRequest ∨ some x = some Resp.serverError := by
      rcases hax with rfl | rfl
      · exact Or.inl rfl
      · exact Or.inr rfl
    have hxf : c.r1.resp = some Resp.badRequest ∨ c.r1.resp = some Resp.serverError := by
      rw [hx]
      exact hx2
    have hf1 := hfail1 hxf
    have c1 : contrib c.r1 = 0 := by simp [contrib, hf1.1]
    rcases hay with rfl | hay
    · have hp2 := hcr2 hy
      have c2 : contrib c.r2 = 1 := by simp [contrib, hp2]
      exact ⟨Or.inr ⟨rfl, hx2⟩, by omega⟩
    · have hy2 : some y = some Resp.badRequest ∨ some y = some Resp.serverError := by
        rcases hay with rfl | rfl
        · exact Or.inl rfl
        · exact Or.inr rfl
      have hyf : c.r2.resp = some Resp.badRequest ∨ c.r2.resp = some Resp.serverError := by
        rw [hy]
        exact hy2
      have hf2 := hfail2 hyf
      have c2 : contrib c.r2 = 0 := by simp [contrib, hf2.1]
      exfalso
      have hge := hf1.2
      omega

/-- C3 witness: a concrete fully-interleaved schedule satisfying the race
theorem's hypotheses. -/
theorem C3_race_one_insert_witness :
    countPair (raceRun 1 1 0 (raceInit (DB.init [petAvail]))
      [true, false, true, false, true, false, true, false]).db 1 1 = 1 :=
  (C3_race_one_insert (DB.init [petAvail]) 1 1 0
    [true, false, true, false, true, false, true, false]
    (by decide) (by decide) (by decide) (by decide)).2

end PetAdoption
